import Mathlib

/-!
Verification of the journal-companion entry-analysis and aggregation pipeline.

The TypeScript source is shallowly embedded: JavaScript strings are Lean
`String`s manipulated through their underlying character lists (core `String`
functions such as `toLowerCase` are re-modelled over `List Char` because the
kernel must be able to evaluate them), JavaScript numbers that hold integral
values are `Int`/`Nat` with explicit `% 2 ^ 32` where the source relies on
32-bit coercions (`|0`, `>>>`, `<<`), timestamps are integers of milliseconds
with local calendar days obtained by flooring (`Int.fdiv` by 86400000), and
calendar points used by the period-insight component are explicit
(year, month, day, millisecond-of-day) records ordered lexicographically.
Remote calls that may fail are functions into `Option`.
-/

/-! ## String primitives modelling the JavaScript string operations used -/

/-- ASCII lower-casing of one character, modelling the effect of JavaScript
`toLowerCase` on the ASCII range (all keywords and pool strings compared in the
source are ASCII). -/
def lowerChar (c : Char) : Char :=
  if 65 ≤ c.toNat ∧ c.toNat ≤ 90 then Char.ofNat (c.toNat + 32) else c

/-- JavaScript `s.toLowerCase()`. -/
def lowerString (s : String) : String := ⟨s.data.map lowerChar⟩

/-- Containment of `pat` as a contiguous substring of a character list. -/
def charsContain (pat : List Char) : List Char → Bool
  | [] => pat.isEmpty
  | c :: t => pat.isPrefixOf (c :: t) || charsContain pat t

/-- JavaScript `s.includes(pat)`. -/
def strIncludes (s pat : String) : Bool := charsContain pat.data s.data

/-- Accumulator of the whitespace tokenizer: `cur` holds the characters of the
current word in reverse. -/
def wordsAux (cur : List Char) : List Char → List String
  | [] => if cur.isEmpty then [] else [⟨cur.reverse⟩]
  | c :: t =>
    if c.isWhitespace then
      if cur.isEmpty then wordsAux [] t else (⟨cur.reverse⟩ : String) :: wordsAux [] t
    else wordsAux (c :: cur) t

/-- JavaScript `content.split(/\s+/).filter(w => w.length > 0)`: the list of
maximal nonempty runs of non-whitespace characters. -/
def splitWhitespaceTokens (content : String) : List String := wordsAux [] content.data

/-- JavaScript `s.trim()`. -/
def trimString (s : String) : String :=
  ⟨((s.data.dropWhile Char.isWhitespace).reverse.dropWhile Char.isWhitespace).reverse⟩

/-! ## Heuristic classifier
Source: `src/journal-companion/src/lib/gemini.ts`, fallback branch of
`analyzeJournalEntry`, and `src/journal-companion/src/pages/api/analyze.ts`,
`generateFallbackAnalysis`. -/

def positiveWords : List String :=
  ["happy", "joy", "excited", "grateful", "love", "wonderful", "amazing", "great", "good", "positive"]

def negativeWords : List String :=
  ["sad", "angry", "frustrated", "worried", "anxious", "stress", "bad", "terrible", "awful", "negative"]

/-- The `words.forEach` loop of the fallback classifier: lower-case each token
and bump the positive (resp. negative) counter when it contains some positive
(resp. negative) keyword as a substring; a token may bump both. -/
def sentimentTallyTokens (words : List String) : Nat × Nat :=
  words.foldl
    (fun acc word =>
      let lowerWord := lowerString word
      ((if positiveWords.any (fun kw => strIncludes lowerWord kw) then acc.1 + 1 else acc.1),
       (if negativeWords.any (fun kw => strIncludes lowerWord kw) then acc.2 + 1 else acc.2)))
    (0, 0)

/-- The sentiment decision chain of the fallback classifier. -/
def sentimentLabel (positiveCount negativeCount : Nat) : String :=
  if positiveCount > negativeCount then "positive"
  else if negativeCount > positiveCount then "negative"
  else if positiveCount = negativeCount ∧ positiveCount > 0 then "mixed"
  else "neutral"

/-- Theme extraction of the client-side fallback, `extractSimpleThemes` in
`gemini.ts`: themes are pushed in the source order work, family, health,
creativity, personal growth, relationships, stress, gratitude and the result is
sliced to at most 5. Consecutive conditional pushes are modelled as an append
of conditional singletons. -/
def extractSimpleThemes (content : String) : List String :=
  let lowerContent := lowerString content
  ((if strIncludes lowerContent "work" || strIncludes lowerContent "job" || strIncludes lowerContent "career" then ["work"] else [])
    ++ (if strIncludes lowerContent "family" || strIncludes lowerContent "parent" || strIncludes lowerContent "child" then ["family"] else [])
    ++ (if strIncludes lowerContent "health" || strIncludes lowerContent "exercise" || strIncludes lowerContent "sleep" then ["health"] else [])
    ++ (if strIncludes lowerContent "creative" || strIncludes lowerContent "art" || strIncludes lowerContent "music" then ["creativity"] else [])
    ++ (if strIncludes lowerContent "learn" || strIncludes lowerContent "grow" || strIncludes lowerContent "improve" then ["personal growth"] else [])
    ++ (if strIncludes lowerContent "friend" || strIncludes lowerContent "relationship" || strIncludes lowerContent "love" then ["relationships"] else [])
    ++ (if strIncludes lowerContent "stress" || strIncludes lowerContent "anxiety" || strIncludes lowerContent "worry" then ["stress"] else [])
    ++ (if strIncludes lowerContent "thankful" || strIncludes lowerContent "grateful" || strIncludes lowerContent "blessed" then ["gratitude"] else [])).take 5

/-- Theme extraction of the API-route fallback, `generateFallbackAnalysis` in
`analyze.ts`: source order work, family, relationship, creativity, stress,
growth, health, gratitude; no length cap is applied. -/
def fallbackThemesList (content : String) : List String :=
  let lowerContent := lowerString content
  (if strIncludes lowerContent "work" || strIncludes lowerContent "job" || strIncludes lowerContent "career" then ["work"] else [])
    ++ (if strIncludes lowerContent "family" || strIncludes lowerContent "parent" || strIncludes lowerContent "child" then ["family"] else [])
    ++ (if strIncludes lowerContent "friend" || strIncludes lowerContent "relationship" || strIncludes lowerContent "love" then ["relationship"] else [])
    ++ (if strIncludes lowerContent "creative" || strIncludes lowerContent "art" || strIncludes lowerContent "write" then ["creativity"] else [])
    ++ (if strIncludes lowerContent "stress" || strIncludes lowerContent "anxiety" || strIncludes lowerContent "worry" then ["stress"] else [])
    ++ (if strIncludes lowerContent "grow" || strIncludes lowerContent "learn" || strIncludes lowerContent "improve" then ["growth"] else [])
    ++ (if strIncludes lowerContent "health" || strIncludes lowerContent "exercise" || strIncludes lowerContent "sleep" then ["health"] else [])
    ++ (if strIncludes lowerContent "thankful" || strIncludes lowerContent "grateful" || strIncludes lowerContent "blessed" then ["gratitude"] else [])

/-- The enriched-entry record produced by both the remote-validated path and
the fallback classifier. -/
structure AnalysisResult where
  sentiment : String
  themes : List String
  insights : String
  wordCount : Int
  emotionalIntensity : Int
  keyTopics : List String
deriving DecidableEq

/-- Fallback analysis of the client (`catch` branch of `analyzeJournalEntry`
in `gemini.ts`). -/
def fallbackAnalyze (content : String) : AnalysisResult :=
  let words := splitWhitespaceTokens content
  let wordCount : Nat := words.length
  let tally := sentimentTallyTokens words
  let sentiment := sentimentLabel tally.1 tally.2
  let themes := extractSimpleThemes content
  { sentiment := sentiment
    themes := themes
    insights := "This entry shows " ++ sentiment ++ " emotions with " ++ toString wordCount ++ " words."
    wordCount := wordCount
    emotionalIntensity := (min (tally.1 + tally.2) 10 : Nat)
    keyTopics := themes.take 3 }

/-- The client entry-enrichment function `analyzeJournalEntry` in `gemini.ts`:
the remote call is a function into `Option` (`none` models a thrown network
error, a non-ok response, or an unparsable body); the `catch` branch runs the
local fallback. -/
def analyzeJournalEntry (remote : String → Option AnalysisResult) (content : String) : AnalysisResult :=
  match remote content with
  | some data => data
  | none => fallbackAnalyze content

/-- Fallback analysis of the API route (`generateFallbackAnalysis` in
`analyze.ts`). Its `keyTopics` slices the raw theme list, before the
reflection default is substituted. -/
def generateFallbackAnalysis (content : String) : AnalysisResult :=
  let words := splitWhitespaceTokens content
  let wordCount : Nat := words.length
  let tally := sentimentTallyTokens words
  let sentiment := sentimentLabel tally.1 tally.2
  let themes := fallbackThemesList content
  { sentiment := sentiment
    themes := if themes.length > 0 then themes else ["reflection"]
    insights := "Thank you for sharing your thoughts. Every entry helps you understand yourself better."
    wordCount := wordCount
    emotionalIntensity := (min (tally.1 + tally.2) 10 : Nat)
    keyTopics := themes.take 3 }

/-! ## Validate-and-repair of a parsed remote response
Source: `validatedAnalysis` in `analyze.ts`. Fields of the loosely-typed JSON
are modelled as `Option`s: `none` stands for a missing or falsy value (for the
numeric fields, a value whose `parseInt` is `NaN`; for the array fields, a
non-array). -/

structure RawAnalysis where
  sentiment : Option String
  themes : Option (List String)
  insights : Option String
  wordCount : Option Int
  emotionalIntensity : Option Int
  keyTopics : Option (List String)
deriving DecidableEq

/-- JavaScript `parseInt(v) || d`: the default is taken when the parse yields
`NaN` (modelled `none`) or `0` (both falsy); every other integer, negative ones
included, is kept. -/
def jsOrInt (v : Option Int) (d : Int) : Int :=
  match v with
  | some n => if n = 0 then d else n
  | none => d

/-- The validate-and-repair step of the API route. -/
def validatedAnalysis (analysis : RawAnalysis) (content : String) : AnalysisResult :=
  { sentiment := analysis.sentiment.getD "neutral"
    themes := match analysis.themes with
      | some themes => themes.take 5
      | none => ["reflection"]
    insights := analysis.insights.getD "Thank you for sharing your thoughts. Every entry helps you understand yourself better."
    wordCount := jsOrInt analysis.wordCount ((splitWhitespaceTokens content).length : Int)
    emotionalIntensity := min (max (jsOrInt analysis.emotionalIntensity 5) 1) 10
    keyTopics := match analysis.keyTopics with
      | some ks => ks.take 3
      | none => [] }

/-! ## Streak calculator
Source: `calculateCurrentStreak` and `getDateKey` in `src/unnamed/part_006`.
Timestamps are integers of milliseconds; the local-calendar-day key of a
timestamp is its floor-division by 86400000 (the source builds an equivalent
injective `y-m-d` string from the local date; decrementing the source cursor
by one calendar day is decrementing the key by one). -/

def getDateKey (t : Int) : Int := t.fdiv 86400000

/-- First-occurrence deduplication, modelling JavaScript
`Array.from(new Set(l))`; `seen` accumulates the values already emitted. -/
def dedupKeepFirstAux {α : Type _} [DecidableEq α] (seen : List α) : List α → List α
  | [] => []
  | a :: t => if a ∈ seen then dedupKeepFirstAux seen t else a :: dedupKeepFirstAux (a :: seen) t

def dedupKeepFirst {α : Type _} [DecidableEq α] (l : List α) : List α := dedupKeepFirstAux [] l

/-- Descending sort of the unique day keys, modelling
`.sort((a, b) => new Date(b).getTime() - new Date(a).getTime())`. -/
def sortDesc (l : List Int) : List Int := List.insertionSort (· ≥ ·) l

/-- The counting loop of `calculateCurrentStreak` once the starting cursor is
fixed: it consumes the descending unique-day list in lockstep with a cursor
that moves back one day per match and stops at the first mismatch (the
source's `break`). -/
def streakWalk : List Int → Int → Nat
  | [], _ => 0
  | d :: rest, cursorKey => if d = cursorKey then streakWalk rest (cursorKey - 1) + 1 else 0

/-- The streak calculator. The source's restart branch (when the most recent
unique day is not today it re-enters the loop anchored at yesterday, and
otherwise breaks with streak 0) is modelled by choosing the starting cursor
up front: the walk is entered with cursor `todayKey` when the most recent day
equals it, with cursor `todayKey - 1` when the most recent day equals that,
and is skipped otherwise. -/
def calculateCurrentStreak (timestamps : List Int) (now : Int) : Nat :=
  if timestamps.isEmpty then 0
  else
    let todayKey := getDateKey now
    match sortDesc (dedupKeepFirst (timestamps.map getDateKey)) with
    | [] => 0
    | d0 :: rest =>
      if d0 = todayKey then streakWalk (d0 :: rest) todayKey
      else if d0 = todayKey - 1 then streakWalk (d0 :: rest) (todayKey - 1)
      else 0

/-! Specification-side streak function, stated from the words of the spec
(section 4.7): reduce the timestamps to the set of unique day keys; if the
most recent unique day equals today's key start there, else if it equals
yesterday's key start there, else the streak is 0; then walk backward one day
at a time counting days present in the set, stopping at the first absent
day. -/

/-- Counts consecutive days present in `days`, walking backward from `d`;
`fuel` bounds the walk and is instantiated with the number of unique days,
an upper bound of any run of distinct present days. -/
def countRun (days : List Int) (d : Int) : Nat → Nat
  | 0 => 0
  | fuel + 1 => if d ∈ days then countRun days (d - 1) fuel + 1 else 0

/-- The most recent (largest) unique day key, `none` on an empty set. -/
def specMostRecent (days : List Int) : Option Int :=
  match days with
  | [] => none
  | d :: ds => some (ds.foldl max d)

/-- Modelled from the spec: the streak algorithm of section 4.7 stated
directly over the set of unique day keys. -/
def specCurrentStreak (timestamps : List Int) (now : Int) : Nat :=
  let days := dedupKeepFirst (timestamps.map getDateKey)
  match specMostRecent days with
  | none => 0
  | some m =>
    let anchor := getDateKey now
    if m = anchor then countRun days anchor days.length
    else if m = anchor - 1 then countRun days (anchor - 1) days.length
    else 0

/-! ## Diversified suggestion selector
Source: `hashString`, `seededShuffle`, `weekKey` and `diversifySuggestions` in
the API route of `gemini.ts`. All 32-bit JavaScript coercions are modelled by
reduction modulo 2 ^ 32 over `Nat`, which agrees bit-for-bit with the
source's mixture of int32 and uint32 views. -/

/-- One character step of the FNV-style `hashString` loop: xor in the char
code, then `h += (h << 1) + (h << 4) + (h << 7) + (h << 8) + (h << 24)` with
32-bit wrap-around. -/
def hashStep (h c : Nat) : Nat :=
  let h1 := (h ^^^ c) % 4294967296
  (h1 + (h1 <<< 1) % 4294967296 + (h1 <<< 4) % 4294967296 + (h1 <<< 7) % 4294967296
      + (h1 <<< 8) % 4294967296 + (h1 <<< 24) % 4294967296) % 4294967296

/-- JavaScript `hashString`: fold `hashStep` over the char codes starting from
the FNV offset basis; the final `>>> 0` is the maintained mod-2^32 view. -/
def hashString (input : String) : Nat :=
  input.data.foldl (fun h c => hashStep h c.toNat) 2166136261

/-- One xorshift step of `seededShuffle`:
`s ^= s << 13; s ^= s >>> 17; s ^= s << 5; s >>>= 0`. -/
def xorshift (s : Nat) : Nat :=
  let s1 := (s ^^^ (s <<< 13) % 4294967296) % 4294967296
  let s2 := s1 ^^^ s1 >>> 17
  (s2 ^^^ (s2 <<< 5) % 4294967296) % 4294967296

/-- In-place swap of positions `i` and `j` of a list, modelling
`tmp = a[i]; a[i] = a[j]; a[j] = tmp`. -/
def swapIdx {α : Type _} (a : List α) (i j : Nat) : List α :=
  match a.get? i, a.get? j with
  | some x, some y => (a.set i y).set j x
  | _, _ => a

/-- The Fisher-Yates loop of `seededShuffle`: `for (i = len - 1; i > 0; i--)`
advance the xorshift state, pick `j = s % (i + 1)` and swap. -/
def shuffleGo {α : Type _} (a : List α) (s : Nat) : Nat → List α
  | 0 => a
  | i + 1 =>
    let s1 := xorshift s
    let j := s1 % (i + 2)
    shuffleGo (swapIdx a (i + 1) j) s1 i

/-- JavaScript `seededShuffle(arr, seed)`; `seed || 1` replaces a zero seed
by 1, and the source copies the array (`arr.slice()`) so the input is never
mutated, which the pure embedding reflects. -/
def seededShuffle {α : Type _} (arr : List α) (seed : Nat) : List α :=
  shuffleGo arr (if seed = 0 then 1 else seed) (arr.length - 1)

/-- Week identifier `weekKey`. A JavaScript `Date` is modelled by the data the
function reads from it: the local year, the milliseconds elapsed since local
January 1 of that year, and the weekday index of that January 1 (the source's
`onejan.getDay()`). The source divides the milliseconds by 86400000 as a real
number before flooring; flooring in two stages over `Nat` yields the same
value. -/
structure JsDate where
  year : Int
  msSinceJan1 : Nat
  jan1Weekday : Nat
deriving DecidableEq

def weekKey (d : JsDate) : String :=
  toString d.year ++ "-W" ++ toString ((d.msSinceJan1 / 86400000 + d.jan1Weekday + 1) / 7)

def generalPool : List String :=
  ["Write one intention for tomorrow and one thing you appreciate today.",
   "Take a 5-minute pause to breathe and name the feeling you notice.",
   "Go for a brief walk and capture one observation when you return.",
   "Message someone “thinking of you” and note how that feels.",
   "Tidy one small space for five minutes and reflect on the change."]

def stressPool : List String :=
  ["Try a 4-7-8 breathing cycle (2 minutes) and note any shift.",
   "Timebox one worry to 10 minutes; list one tiny next step.",
   "Step outside for fresh air and describe one sensory detail."]

def workPool : List String :=
  ["Set one boundary for tomorrow (e.g., a no‑meeting block).",
   "Define a “smallest next step” and schedule 15 focused minutes.",
   "Close the day with a 2‑line work log; let the rest wait."]

def relationshipsPool : List String :=
  ["Send a brief check‑in to someone you care about.",
   "Write a gratitude line about a person in your life.",
   "Plan a 10‑minute connection (call, walk, or shared tea)."]

def healthPool : List String :=
  ["Drink a glass of water and take three deep breaths.",
   "Stretch for two minutes and notice where you release tension.",
   "Plan a short walk or wind‑down ritual for tonight."]

def creativityPool : List String :=
  ["Brain‑dump five ideas without judgment for two minutes.",
   "Doodle or free‑write for 90 seconds; keep it playful.",
   "Capture one curiosity to explore this week."]

def gratitudePool : List String :=
  ["List three tiny things that brought ease today.",
   "Write one thank‑you note (can be unsent).",
   "Revisit a positive highlight and add one detail."]

/-- One step of the final selection loop of `diversifySuggestions`: skip blank
entries and case-insensitive duplicates, stop after 3 picks. -/
def pickStep (picked : List String) (s : String) : List String :=
  if picked.length ≥ 3 then picked
  else
    let normalized := trimString s
    if normalized = "" then picked
    else if picked.any (fun p => lowerString p = lowerString normalized) then picked
    else picked ++ [normalized]

def pickDistinct (shuffled : List String) : List String := shuffled.foldl pickStep []

/-- JavaScript `diversifySuggestions(base, content, sentiment, themes)`; the
source reads the current date inside `weekKey()`, which the embedding passes
explicitly as `now`. -/
def diversifySuggestions (base : List String) (content : String) (sentiment : String)
    (themes : List String) (now : JsDate) : List String :=
  let lower := lowerString content
  let thematic :=
    (if sentiment = "negative" || strIncludes lower "stress" || strIncludes lower "anxiety" then stressPool else [])
      ++ (if themes.contains "work" then workPool else [])
      ++ (if themes.contains "family" || themes.contains "relationships" || strIncludes lower "friend" then relationshipsPool else [])
      ++ (if themes.contains "health" then healthPool else [])
      ++ (if themes.contains "creativity" then creativityPool else [])
      ++ (if themes.contains "gratitude" || strIncludes lower "grateful" then gratitudePool else [])
  let seed := hashString (content ++ "|" ++ weekKey now)
  let combined := dedupKeepFirst (base ++ thematic ++ generalPool)
  pickDistinct (seededShuffle combined seed)

/-! ## Sentiment trend series
Source: `sentimentTrendData` in
`src/journal-companion/src/components/JournalDashboard.tsx`. An entry is
modelled by its local calendar day key and its sentiment string; `today` is
the day key of the current date, and `subDays(new Date(), i)` is `today - i`. -/

structure TrendPoint where
  date : Int
  positive : Nat
  negative : Nat
  neutral : Nat
  mixed : Nat
deriving DecidableEq

/-- The `for (i = days - 1; i >= 0; i--)` loop building the dense trend
series: index `k` of the result corresponds to loop counter `i = days-1-k`. -/
def sentimentTrendData (entries : List (Int × String)) (today : Int) (days : Nat) : List TrendPoint :=
  (List.range days).map (fun k =>
    let date := today - ((days - 1 - k : Nat) : Int)
    let dayEntries := entries.filter (fun e => e.1 = date)
    { date := date
      positive := (dayEntries.filter (fun e => e.2 = "positive")).length
      negative := (dayEntries.filter (fun e => e.2 = "negative")).length
      neutral := (dayEntries.filter (fun e => e.2 = "neutral")).length
      mixed := (dayEntries.filter (fun e => e.2 = "mixed")).length })

/-! ## Period-insight month bounds
Source: the `insights` memo of `InsightSummary` in `src/unnamed/part_001`
(month branch). A local calendar point is (year, 0-based month, 1-based day,
millisecond of day), ordered lexicographically, which matches comparison of
the underlying `Date` values. -/

structure LocalTime where
  year : Int
  month : Nat
  day : Nat
  msOfDay : Nat
deriving DecidableEq

/-- Chronological order of local calendar points. -/
def timeLe (a b : LocalTime) : Bool :=
  a.year < b.year || (a.year = b.year && (a.month < b.month || (a.month = b.month
    && (a.day < b.day || (a.day = b.day && a.msOfDay ≤ b.msOfDay)))))

def isLeapYear (y : Int) : Bool := (y % 4 == 0 && y % 100 != 0) || y % 400 == 0

/-- Length of a 0-based month, the value JavaScript realizes in
`new Date(y, m + 1, 0).getDate()`. -/
def daysInMonth (y : Int) (m : Nat) : Nat :=
  match m with
  | 1 => if isLeapYear y then 29 else 28
  | 3 => 30
  | 5 => 30
  | 8 => 30
  | 10 => 30
  | _ => 31

/-- The source's `monthStart = new Date(now.getFullYear(), now.getMonth(), 1)`:
midnight of the first day of the current month. -/
def monthStartOf (now : LocalTime) : LocalTime := ⟨now.year, now.month, 1, 0⟩

/-- The source's `monthEnd = new Date(now.getFullYear(), now.getMonth() + 1, 0)`:
midnight (00:00:00.000) of the last day of the current month. -/
def monthEndOf (now : LocalTime) : LocalTime :=
  ⟨now.year, now.month, daysInMonth now.year now.month, 0⟩

/-- The month-period filter
`entries.filter(e => isWithinInterval(new Date(e.timestamp), {start: monthStart, end: monthEnd}))`;
`isWithinInterval` is inclusive at both bounds. -/
def monthPeriodEntries (entries : List LocalTime) (now : LocalTime) : List LocalTime :=
  entries.filter (fun t => timeLe (monthStartOf now) t && timeLe t (monthEndOf now))

/-! ## Lemmas about the heuristic classifier -/

/-- The counting loop equals a pair of independent `countP`s: each token
contributes to the positive (resp. negative) counter exactly when its
lower-casing contains some positive (resp. negative) keyword. -/
theorem sentimentTally_go (words : List String) : ∀ (a b : Nat),
    words.foldl
      (fun acc word =>
        let lowerWord := lowerString word
        ((if positiveWords.any (fun kw => strIncludes lowerWord kw) then acc.1 + 1 else acc.1),
         (if negativeWords.any (fun kw => strIncludes lowerWord kw) then acc.2 + 1 else acc.2)))
      (a, b)
    = (a + words.countP (fun w => positiveWords.any (fun kw => strIncludes (lowerString w) kw)),
       b + words.countP (fun w => negativeWords.any (fun kw => strIncludes (lowerString w) kw))) := by
  induction words with
  | nil => intro a b; simp
  | cons w t ih =>
    intro a b
    simp only [List.foldl_cons, List.countP_cons]
    rw [ih]
    by_cases hp : positiveWords.any (fun kw => strIncludes (lowerString w) kw) = true <;>
      by_cases hn : negativeWords.any (fun kw => strIncludes (lowerString w) kw) = true <;>
        simp [hp, hn, Prod.ext_iff] <;> omega

theorem natMin10_cast_le (a : Nat) : ((min a 10 : Nat) : Int) ≤ 10 := by
  exact_mod_cast Nat.min_le_right a 10

theorem sentimentLabel_mem_enum (p n : Nat) :
    sentimentLabel p n ∈ (["positive", "negative", "neutral", "mixed"] : List String) := by
  unfold sentimentLabel
  split_ifs <;> simp

/-- C2: the entry-enrichment function is total; whenever the remote
classification fails on every input, it returns exactly the local heuristic
fallback result, a record in which every field (sentiment, themes, insights,
wordCount, emotionalIntensity, keyTopics) is populated and the sentiment is
drawn from the four-value enum. -/
theorem analyzeJournalEntry_total_fallback (remote : String → Option AnalysisResult)
    (content : String) (hfail : ∀ t, remote t = none) :
    analyzeJournalEntry remote content = fallbackAnalyze content ∧
    (analyzeJournalEntry remote content).sentiment
      ∈ (["positive", "negative", "neutral", "mixed"] : List String) := by
  have h1 : analyzeJournalEntry remote content = fallbackAnalyze content := by
    unfold analyzeJournalEntry
    rw [hfail]
  refine ⟨h1, ?_⟩
  rw [h1]
  exact sentimentLabel_mem_enum _ _

theorem analyzeJournalEntry_total_fallback_witness :
    analyzeJournalEntry (fun _ => none) "hello world" = fallbackAnalyze "hello world" ∧
    (analyzeJournalEntry (fun _ => none) "hello world").sentiment
      ∈ (["positive", "negative", "neutral", "mixed"] : List String) :=
  analyzeJournalEntry_total_fallback (fun _ => none) "hello world" (fun _ => rfl)

/-- C3: the heuristic classifier counts, over the whitespace tokens, the
tokens whose lower-casing contains a positive (resp. negative) keyword as a
substring (a token containing both increments both counters), decides the
sentiment by the stated comparison chain, and reports as word count the
number of nonempty whitespace tokens, which is never negative. -/
theorem heuristic_classifier_decision (content : String) :
    sentimentTallyTokens (splitWhitespaceTokens content)
      = ((splitWhitespaceTokens content).countP
            (fun w => positiveWords.any (fun kw => strIncludes (lowerString w) kw)),
         (splitWhitespaceTokens content).countP
            (fun w => negativeWords.any (fun kw => strIncludes (lowerString w) kw))) ∧
    (fallbackAnalyze content).wordCount = ((splitWhitespaceTokens content).length : Int) ∧
    (generateFallbackAnalysis content).wordCount = ((splitWhitespaceTokens content).length : Int) ∧
    0 ≤ (fallbackAnalyze content).wordCount ∧
    ((sentimentTallyTokens (splitWhitespaceTokens content)).1
        > (sentimentTallyTokens (splitWhitespaceTokens content)).2 →
      (fallbackAnalyze content).sentiment = "positive") ∧
    ((sentimentTallyTokens (splitWhitespaceTokens content)).2
        > (sentimentTallyTokens (splitWhitespaceTokens content)).1 →
      (fallbackAnalyze content).sentiment = "negative") ∧
    ((sentimentTallyTokens (splitWhitespaceTokens content)).1
        = (sentimentTallyTokens (splitWhitespaceTokens content)).2 →
      0 < (sentimentTallyTokens (splitWhitespaceTokens content)).1 →
      (fallbackAnalyze content).sentiment = "mixed") ∧
    ((sentimentTallyTokens (splitWhitespaceTokens content)).1 = 0 →
      (sentimentTallyTokens (splitWhitespaceTokens content)).2 = 0 →
      (fallbackAnalyze content).sentiment = "neutral") := by
  have htally := sentimentTally_go (splitWhitespaceTokens content) 0 0
  simp only [Nat.zero_add] at htally
  refine ⟨htally, rfl, rfl, Int.natCast_nonneg _, ?_, ?_, ?_, ?_⟩ <;>
    · intros
      show sentimentLabel _ _ = _
      unfold sentimentLabel
      split_ifs <;> first | rfl | omega

theorem heuristic_classifier_decision_witness :
    (fallbackAnalyze "happy sad day").sentiment = "mixed" := by
  have h := heuristic_classifier_decision "happy sad day"
  exact h.2.2.2.2.2.2.1 (by decide) (by decide)

/-- C9 counterexample: on text with no sentiment keyword the heuristic
fallback reports emotionalIntensity 0, outside the claimed range [1,10]. -/
theorem emotionalIntensity_counterexample :
    (generateFallbackAnalysis "Met a colleague today.").emotionalIntensity = 0 ∧
    ¬(1 ≤ (generateFallbackAnalysis "Met a colleague today.").emotionalIntensity) ∧
    (fallbackAnalyze "Met a colleague today.").emotionalIntensity = 0 := by decide

/-- C9 amended: the remote-validated path always clamps emotionalIntensity
into [1,10]; the heuristic fallback produces min(positiveCount +
negativeCount, 10), which lies in [0,10] and equals 0 when no sentiment
keyword matches. -/
theorem emotionalIntensity_bounds (raw : RawAnalysis) (content c₁ c₂ : String) :
    1 ≤ (validatedAnalysis raw content).emotionalIntensity ∧
    (validatedAnalysis raw content).emotionalIntensity ≤ 10 ∧
    0 ≤ (fallbackAnalyze c₁).emotionalIntensity ∧
    (fallbackAnalyze c₁).emotionalIntensity ≤ 10 ∧
    0 ≤ (generateFallbackAnalysis c₂).emotionalIntensity ∧
    (generateFallbackAnalysis c₂).emotionalIntensity ≤ 10 := by
  refine ⟨le_min (le_max_right _ _) (by norm_num), min_le_right _ _,
    Int.natCast_nonneg _, ?_, Int.natCast_nonneg _, ?_⟩ <;>
    exact natMin10_cast_le _

/-- C8 counterexample: a remote wordCount of -5 is truthy for `parseInt(x) ||
fallback`, so it is kept verbatim instead of being replaced by the
whitespace-token count, and the returned wordCount is not positive. -/
theorem validated_wordCount_counterexample :
    (validatedAnalysis ⟨none, none, none, some (-5), none, none⟩ "hello world").wordCount = -5 ∧
    (splitWhitespaceTokens "hello world").length = 2 ∧
    ¬(0 < (validatedAnalysis ⟨none, none, none, some (-5), none, none⟩ "hello world").wordCount) := by
  decide

/-- C8 amended: the validate-and-repair step replaces a wordCount whose parse
is NaN (missing or non-numeric) or equal to 0 with the whitespace-token count
of the submitted text; every other parsed integer, negative ones included, is
kept verbatim. Hence for text with at least one token the returned wordCount
is never 0 - positive whenever the remote count was absent, non-numeric,
zero, or itself positive. -/
theorem validated_wordCount_rule (raw : RawAnalysis) (content : String) :
    ((raw.wordCount = none ∨ raw.wordCount = some 0) →
      (validatedAnalysis raw content).wordCount = ((splitWhitespaceTokens content).length : Int)) ∧
    (∀ n : Int, n ≠ 0 → raw.wordCount = some n →
      (validatedAnalysis raw content).wordCount = n) ∧
    (splitWhitespaceTokens content ≠ [] → (validatedAnalysis raw content).wordCount ≠ 0) := by
  refine ⟨?_, ?_, ?_⟩
  · rintro (h | h) <;> simp [validatedAnalysis, jsOrInt, h]
  · intro n hn h
    simp [validatedAnalysis, jsOrInt, h, hn]
  · intro hne
    have hlen : (splitWhitespaceTokens content).length ≠ 0 :=
      Nat.pos_iff_ne_zero.mp (List.length_pos.mpr hne)
    cases hw : raw.wordCount with
    | none => simp [validatedAnalysis, jsOrInt, hw, hlen]
    | some n =>
      by_cases hn : n = 0 <;> simp [validatedAnalysis, jsOrInt, hw, hn, hlen]

theorem validated_wordCount_rule_witness :
    (validatedAnalysis ⟨none, none, none, some 0, none, none⟩ "one two three").wordCount = 3 := by
  have h := validated_wordCount_rule ⟨none, none, none, some 0, none, none⟩ "one two three"
  rw [h.1 (Or.inr rfl)]
  decide

/-! ## Theme extraction (C4) -/

theorem chunk_sublist {α : Type _} (c : Bool) (x : α) :
    List.Sublist (if c then [x] else []) [x] := by
  cases c <;> simp

/-- C4 counterexample: with no trigger the client-side extractor returns the
empty list, not the claimed singleton reflection; and the API-route fallback
applies no cap of 5, returning all eight themes in the order work, family,
relationship, creativity, stress, growth, health, gratitude, which also
differs from the claimed trigger-check order. -/
theorem theme_extraction_counterexample :
    extractSimpleThemes "Quiet evening." = [] ∧
    ([] : List String) ≠ ["reflection"] ∧
    (generateFallbackAnalysis "work family friend creative stress learn health grateful").themes
      = ["work", "family", "relationship", "creativity", "stress", "growth", "health", "gratitude"] ∧
    ¬((generateFallbackAnalysis
        "work family friend creative stress learn health grateful").themes.length ≤ 5) := by
  decide

/-- C4 amended: the client-side extractor returns each triggered theme at most
once, as a sublist of the fixed order work, family, health, creativity,
personal growth, relationships, stress, gratitude, capped at 5, and returns
the empty list when nothing triggers; the API-route fallback returns the
triggered themes as an uncapped sublist of its order work, family,
relationship, creativity, stress, growth, health, gratitude and substitutes
the singleton reflection exactly when nothing triggers. -/
theorem theme_extraction_amended (content : String) :
    List.Sublist (extractSimpleThemes content)
      ["work", "family", "health", "creativity", "personal growth", "relationships", "stress", "gratitude"] ∧
    (extractSimpleThemes content).length ≤ 5 ∧
    (extractSimpleThemes content).Nodup ∧
    List.Sublist (fallbackThemesList content)
      ["work", "family", "relationship", "creativity", "stress", "growth", "health", "gratitude"] ∧
    (fallbackThemesList content).Nodup ∧
    (generateFallbackAnalysis content).themes ≠ [] ∧
    (fallbackThemesList content = [] → (generateFallbackAnalysis content).themes = ["reflection"]) ∧
    (fallbackThemesList content ≠ [] →
      (generateFallbackAnalysis content).themes = fallbackThemesList content) := by
  have hsub1 : List.Sublist (extractSimpleThemes content)
      ["work", "family", "health", "creativity", "personal growth", "relationships", "stress", "gratitude"] := by
    refine (List.take_sublist 5 _).trans ?_
    exact (((((((chunk_sublist _ "work").append (chunk_sublist _ "family")).append
      (chunk_sublist _ "health")).append (chunk_sublist _ "creativity")).append
      (chunk_sublist _ "personal growth")).append (chunk_sublist _ "relationships")).append
      (chunk_sublist _ "stress")).append (chunk_sublist _ "gratitude")
  have hsub2 : List.Sublist (fallbackThemesList content)
      ["work", "family", "relationship", "creativity", "stress", "growth", "health", "gratitude"] := by
    exact (((((((chunk_sublist _ "work").append (chunk_sublist _ "family")).append
      (chunk_sublist _ "relationship")).append (chunk_sublist _ "creativity")).append
      (chunk_sublist _ "stress")).append (chunk_sublist _ "growth")).append
      (chunk_sublist _ "health")).append (chunk_sublist _ "gratitude")
  have hthemes : (generateFallbackAnalysis content).themes
      = if (fallbackThemesList content).length > 0 then fallbackThemesList content
        else ["reflection"] := rfl
  refine ⟨hsub1, List.length_take_le 5 _, hsub1.nodup (by decide),
    hsub2, hsub2.nodup (by decide), ?_, ?_, ?_⟩
  · rw [hthemes]
    split_ifs with h
    · exact List.ne_nil_of_length_pos h
    · simp
  · intro h
    rw [hthemes, h]
    simp
  · intro h
    rw [hthemes, if_pos (List.length_pos.mpr h)]

theorem theme_extraction_amended_witness :
    (generateFallbackAnalysis "zzz").themes = ["reflection"] ∧
    (generateFallbackAnalysis "I left work early.").themes = fallbackThemesList "I left work early." := by
  have h1 := theme_extraction_amended "zzz"
  have h2 := theme_extraction_amended "I left work early."
  exact ⟨h1.2.2.2.2.2.2.1 (by decide), h2.2.2.2.2.2.2.2 (by decide)⟩

/-! ## Sentiment trend series (C6) -/

/-- C6: the trend series has exactly `days` points; their dates are the
`days` consecutive calendar days ending today, oldest first; and every point
carries all four sentiment counters, each the count of that day's entries
with that sentiment, hence 0 for every sentiment on a day with no entries. -/
theorem sentimentTrendData_dense (entries : List (Int × String)) (today : Int) (days : Nat) :
    (sentimentTrendData entries today days).length = days ∧
    (sentimentTrendData entries today days).map (fun pt => pt.date)
      = (List.range days).map (fun k : Nat => today + 1 + (k : Int) - (days : Int)) ∧
    (∀ pt ∈ sentimentTrendData entries today days,
      pt.positive = ((entries.filter (fun e => e.1 = pt.date)).filter (fun e => e.2 = "positive")).length ∧
      pt.negative = ((entries.filter (fun e => e.1 = pt.date)).filter (fun e => e.2 = "negative")).length ∧
      pt.neutral = ((entries.filter (fun e => e.1 = pt.date)).filter (fun e => e.2 = "neutral")).length ∧
      pt.mixed = ((entries.filter (fun e => e.1 = pt.date)).filter (fun e => e.2 = "mixed")).length ∧
      (entries.filter (fun e => e.1 = pt.date) = [] →
        pt.positive = 0 ∧ pt.negative = 0 ∧ pt.neutral = 0 ∧ pt.mixed = 0)) := by
  refine ⟨by simp [sentimentTrendData], ?_, ?_⟩
  · rw [sentimentTrendData, List.map_map]
    refine List.map_congr_left ?_
    intro k hk
    rw [List.mem_range] at hk
    dsimp [Function.comp]
    omega
  · intro pt hpt
    rw [sentimentTrendData, List.mem_map] at hpt
    obtain ⟨k, hk, rfl⟩ := hpt
    refine ⟨rfl, rfl, rfl, rfl, ?_⟩
    intro h0
    refine ⟨?_, ?_, ?_, ?_⟩ <;> (show (List.filter _ (List.filter _ entries)).length = 0) <;>
      rw [h0] <;> rfl

theorem sentimentTrendData_dense_witness :
    (sentimentTrendData [((5 : Int), "positive")] 5 3).length = 3 ∧
    (⟨5, 1, 0, 0, 0⟩ : TrendPoint).positive
      = (([((5 : Int), "positive")].filter (fun e => e.1 = (⟨5, 1, 0, 0, 0⟩ : TrendPoint).date)).filter
          (fun e => e.2 = "positive")).length := by
  have h := sentimentTrendData_dense [((5 : Int), "positive")] 5 3
  exact ⟨h.1, (h.2.2 ⟨5, 1, 0, 0, 0⟩ (by decide)).1⟩

/-! ## Month bounds of the period-insight generator (C7) -/

/-- C7: the month filter's end bound is midnight of the last calendar day of
the current month, so an entry written later that day (here 10:00 on
2026-10-31, with now inside October 2026) is excluded, although it lies on
the last calendar day of the month and after the month start. -/
theorem month_end_excludes_last_day_entry :
    monthPeriodEntries [⟨2026, 9, 31, 36000000⟩] ⟨2026, 9, 15, 43200000⟩ = [] ∧
    (⟨2026, 9, 31, 36000000⟩ : LocalTime).day = daysInMonth 2026 9 ∧
    (⟨2026, 9, 31, 36000000⟩ : LocalTime).year = (⟨2026, 9, 15, 43200000⟩ : LocalTime).year ∧
    (⟨2026, 9, 31, 36000000⟩ : LocalTime).month = (⟨2026, 9, 15, 43200000⟩ : LocalTime).month ∧
    timeLe (monthStartOf ⟨2026, 9, 15, 43200000⟩) ⟨2026, 9, 31, 36000000⟩ = true := by
  decide

/-! ## Permutation property of the seeded shuffle (C10) -/

/-- Writing an element into position `m` while re-inserting the displaced
element at the head is a permutation. -/
theorem set_cons_swap_perm {α : Type _} : ∀ (t : List α) (m : Nat) (a y : α),
    t.get? m = some y → List.Perm (y :: t.set m a) (a :: t) := by
  intro t
  induction t with
  | nil => intro m a y h; cases h
  | cons b u ih =>
    intro m a y h
    cases m with
    | zero =>
      have hb : b = y := by simpa using h
      subst hb
      exact List.Perm.swap a b u
    | succ k =>
      have hk : u.get? k = some y := by simpa using h
      have h1 : List.Perm (y :: b :: u.set k a) (b :: y :: u.set k a) := List.Perm.swap b y _
      have h2 : List.Perm (b :: y :: u.set k a) (b :: a :: u) := (ih k a y hk).cons b
      have h3 : List.Perm (b :: a :: u) (a :: b :: u) := List.Perm.swap a b u
      exact h1.trans (h2.trans h3)

theorem set_set_swap_perm {α : Type _} : ∀ (l : List α) (i j : Nat) (x y : α),
    l.get? i = some x → l.get? j = some y → List.Perm ((l.set i y).set j x) l := by
  intro l
  induction l with
  | nil => intro i j x y hi; cases hi
  | cons b u ih =>
    intro i j x y hi hj
    cases i with
    | zero =>
      have hx : b = x := by simpa using hi
      cases j with
      | zero =>
        have hy : b = y := by simpa using hj
        subst hx
        subst hy
        exact List.Perm.refl _
      | succ m =>
        have hm : u.get? m = some y := by simpa using hj
        subst hx
        exact set_cons_swap_perm u m b y hm
    | succ n =>
      have hn : u.get? n = some x := by simpa using hi
      cases j with
      | zero =>
        have hy : b = y := by simpa using hj
        subst hy
        exact set_cons_swap_perm u n b x hn
      | succ m =>
        have hm : u.get? m = some y := by simpa using hj
        exact (ih n m x y hn hm).cons b

theorem swapIdx_perm {α : Type _} (a : List α) (i j : Nat) :
    List.Perm (swapIdx a i j) a := by
  unfold swapIdx
  split
  case h_1 x y hi hj => exact set_set_swap_perm a i j x y hi hj
  case h_2 => exact List.Perm.refl a

theorem shuffleGo_perm {α : Type _} : ∀ (i : Nat) (a : List α) (s : Nat),
    List.Perm (shuffleGo a s i) a := by
  intro i
  induction i with
  | zero => intro a s; exact List.Perm.refl a
  | succ k ih =>
    intro a s
    exact (ih _ _).trans (swapIdx_perm a (k + 1) _)

/-- C10: the seeded shuffle returns a permutation of its input for every
input list and every seed - same length and same multiset of elements; the
source copies the array before swapping, so the input itself is untouched,
which the pure embedding reflects. -/
theorem seededShuffle_perm {α : Type _} (arr : List α) (seed : Nat) :
    List.Perm (seededShuffle arr seed) arr :=
  shuffleGo_perm _ _ _

/-! ## Weekly determinism of the suggestion selector (C5) -/

/-- The selection loop preserves the bound of 3 picks and pairwise
case-insensitive distinctness. -/
theorem pickDistinct_go : ∀ (l acc : List String), acc.length ≤ 3 →
    acc.Pairwise (fun a b => lowerString a ≠ lowerString b) →
    (l.foldl pickStep acc).length ≤ 3 ∧
      (l.foldl pickStep acc).Pairwise (fun a b => lowerString a ≠ lowerString b) := by
  intro l
  induction l with
  | nil => intro acc h1 h2; exact ⟨h1, h2⟩
  | cons s t ih =>
    intro acc h1 h2
    have hstep : (pickStep acc s).length ≤ 3 ∧
        (pickStep acc s).Pairwise (fun a b => lowerString a ≠ lowerString b) := by
      simp only [pickStep]
      split_ifs with hfull hblank hdup
      · exact ⟨h1, h2⟩
      · exact ⟨h1, h2⟩
      · exact ⟨h1, h2⟩
      · refine ⟨?_, ?_⟩
        · rw [List.length_append]
          simp only [List.length_singleton]
          omega
        · rw [List.pairwise_append]
          refine ⟨h2, List.pairwise_singleton _ _, ?_⟩
          intro a ha b hb
          rw [List.mem_singleton] at hb
          subst hb
          simp only [List.any_eq_true, decide_eq_true_eq, not_exists, not_and] at hdup
          exact hdup a ha
    exact ih (pickStep acc s) hstep.1 hstep.2

/-- C5: with identical arguments and two now-values carrying the same week
identifier, the suggestion selector returns the identical ordered list; the
result always has at most 3 entries, pairwise distinct case-insensitively;
and a now-value one week later can change the result, witnessed by two dates
of 2024 in weeks W1 and W2. -/
theorem diversifySuggestions_weekly_deterministic :
    (∀ (base : List String) (content sentiment : String) (themes : List String) (d₁ d₂ : JsDate),
      weekKey d₁ = weekKey d₂ →
        diversifySuggestions base content sentiment themes d₁
          = diversifySuggestions base content sentiment themes d₂) ∧
    (∀ (base : List String) (content sentiment : String) (themes : List String) (d : JsDate),
      (diversifySuggestions base content sentiment themes d).length ≤ 3) ∧
    (∀ (base : List String) (content sentiment : String) (themes : List String) (d : JsDate),
      (diversifySuggestions base content sentiment themes d).Pairwise
        (fun a b => lowerString a ≠ lowerString b)) ∧
    diversifySuggestions [] "hello" "neutral" [] ⟨2024, 864000000, 1⟩
      ≠ diversifySuggestions [] "hello" "neutral" [] ⟨2024, 1468800000, 1⟩ := by
  refine ⟨?_, ?_, ?_, by decide⟩
  · intro base content sentiment themes d₁ d₂ h
    unfold diversifySuggestions
    rw [h]
  · intro base content sentiment themes d
    exact (pickDistinct_go _ [] (by simp) (by simp)).1
  · intro base content sentiment themes d
    exact (pickDistinct_go _ [] (by simp) (by simp)).2

theorem diversifySuggestions_weekly_deterministic_witness :
    diversifySuggestions [] "hi" "neutral" [] ⟨2024, 864000000, 1⟩
      = diversifySuggestions [] "hi" "neutral" [] ⟨2024, 864000123, 1⟩ :=
  diversifySuggestions_weekly_deterministic.1 [] "hi" "neutral" [] _ _ (by decide)

/-! ## Streak calculator lemmas (C1) -/

theorem mem_dedupKeepFirstAux {α : Type _} [DecidableEq α] :
    ∀ (l seen : List α) (x : α), x ∈ dedupKeepFirstAux seen l ↔ x ∈ l ∧ x ∉ seen := by
  intro l
  induction l with
  | nil => intro seen x; simp [dedupKeepFirstAux]
  | cons a t ih =>
    intro seen x
    by_cases ha : a ∈ seen
    · rw [dedupKeepFirstAux, if_pos ha, ih]
      constructor
      · rintro ⟨hx, hs⟩
        exact ⟨List.mem_cons_of_mem _ hx, hs⟩
      · rintro ⟨hx, hs⟩
        rcases List.mem_cons.mp hx with rfl | hx
        · exact absurd ha hs
        · exact ⟨hx, hs⟩
    · rw [dedupKeepFirstAux, if_neg ha, List.mem_cons, ih]
      constructor
      · rintro (rfl | ⟨hx, hs⟩)
        · exact ⟨List.mem_cons_self _ _, ha⟩
        · exact ⟨List.mem_cons_of_mem _ hx, fun hxs => hs (List.mem_cons_of_mem _ hxs)⟩
      · rintro ⟨hx, hs⟩
        by_cases hxa : x = a
        · exact Or.inl hxa
        · rcases List.mem_cons.mp hx with rfl | hx
          · exact Or.inl rfl
          · refine Or.inr ⟨hx, ?_⟩
            intro hmem
            rcases List.mem_cons.mp hmem with h | h
            · exact hxa h
            · exact hs h

theorem nodup_dedupKeepFirstAux {α : Type _} [DecidableEq α] :
    ∀ (l seen : List α), (dedupKeepFirstAux seen l).Nodup := by
  intro l
  induction l with
  | nil => intro seen; simp [dedupKeepFirstAux]
  | cons a t ih =>
    intro seen
    by_cases ha : a ∈ seen
    · rw [dedupKeepFirstAux, if_pos ha]
      exact ih seen
    · rw [dedupKeepFirstAux, if_neg ha]
      refine List.nodup_cons.mpr ⟨?_, ih (a :: seen)⟩
      intro hmem
      exact ((mem_dedupKeepFirstAux t (a :: seen) a).mp hmem).2 (List.mem_cons_self a seen)

theorem nodup_dedupKeepFirst {α : Type _} [DecidableEq α] (l : List α) :
    (dedupKeepFirst l).Nodup := nodup_dedupKeepFirstAux l []

theorem sortDesc_perm (l : List Int) : List.Perm (sortDesc l) l :=
  List.perm_insertionSort _ l

theorem sortDesc_sorted (l : List Int) : List.Sorted (· ≥ ·) (sortDesc l) :=
  List.sorted_insertionSort _ l

theorem countRun_nil (d : Int) : ∀ fuel, countRun [] d fuel = 0
  | 0 => rfl
  | fuel + 1 => by simp [countRun]

theorem countRun_congr : ∀ (fuel : Nat) (l₁ l₂ : List Int),
    (∀ x : Int, x ∈ l₁ ↔ x ∈ l₂) → ∀ d, countRun l₁ d fuel = countRun l₂ d fuel := by
  intro fuel
  induction fuel with
  | zero => intro l₁ l₂ h d; rfl
  | succ f ih =>
    intro l₁ l₂ h d
    rw [countRun, countRun]
    by_cases hd : d ∈ l₁
    · rw [if_pos hd, if_pos ((h d).mp hd), ih l₁ l₂ h]
    · rw [if_neg hd, if_neg (fun hx => hd ((h d).mpr hx))]

theorem countRun_cons_of_lt : ∀ (fuel : Nat) (c d : Int) (rest : List Int), c < d →
    countRun (d :: rest) c fuel = countRun rest c fuel := by
  intro fuel
  induction fuel with
  | zero => intro c d rest h; rfl
  | succ f ih =>
    intro c d rest hcd
    rw [countRun, countRun]
    have hnotc : c ∉ d :: rest ↔ c ∉ rest := by
      rw [List.mem_cons]
      constructor
      · intro h hc; exact h (Or.inr hc)
      · rintro h (h2 | h2)
        · exact absurd h2 (ne_of_lt hcd)
        · exact h h2
    by_cases hc : c ∈ rest
    · rw [if_pos (List.mem_cons_of_mem _ hc), if_pos hc, ih (c - 1) d rest (by omega)]
    · rw [if_neg (hnotc.mpr hc), if_neg hc]

/-- On a strictly descending list whose elements are all at most the cursor,
the lockstep walk of the source equals the backward membership count of the
spec, provided the fuel covers the list. -/
theorem streakWalk_eq_countRun : ∀ (s : List Int), s.Pairwise (· > ·) →
    ∀ (c : Int) (fuel : Nat), s.length ≤ fuel → (∀ x ∈ s, x ≤ c) →
    streakWalk s c = countRun s c fuel := by
  intro s
  induction s with
  | nil => intro _ c fuel _ _; exact (countRun_nil c fuel).symm
  | cons d rest ih =>
    intro hp c fuel hlen hub
    have hd : d ≤ c := hub d (List.mem_cons_self _ _)
    cases fuel with
    | zero => simp at hlen
    | succ f =>
      have hp2 : rest.Pairwise (· > ·) := (List.pairwise_cons.mp hp).2
      have hgt : ∀ x ∈ rest, x < d := (List.pairwise_cons.mp hp).1
      by_cases hdc : d = c
      · subst hdc
        rw [streakWalk, if_pos rfl, countRun, if_pos (List.mem_cons_self _ _)]
        congr 1
        rw [countRun_cons_of_lt f (d - 1) d rest (by omega)]
        refine ih hp2 (d - 1) f (by simpa using hlen) ?_
        intro x hx
        have := hgt x hx
        omega
      · have hdc2 : d < c := lt_of_le_of_ne hd hdc
        rw [streakWalk, if_neg hdc, countRun, if_neg ?_]
        intro hmem
        rcases List.mem_cons.mp hmem with h | h
        · exact hdc h.symm
        · have := hgt c h
          omega

theorem le_foldl_max : ∀ (ds : List Int) (d : Int), d ≤ ds.foldl max d := by
  intro ds
  induction ds with
  | nil => intro d; exact le_refl d
  | cons a t ih => intro d; exact le_trans (le_max_left d a) (ih (max d a))

theorem foldl_max_mem : ∀ (ds : List Int) (d : Int),
    ds.foldl max d = d ∨ ds.foldl max d ∈ ds := by
  intro ds
  induction ds with
  | nil => intro d; exact Or.inl rfl
  | cons a t ih =>
    intro d
    rcases ih (max d a) with h | h
    · rcases max_choice d a with hm | hm
      · left
        show t.foldl max (max d a) = d
        rw [h, hm]
      · right
        show t.foldl max (max d a) ∈ a :: t
        rw [h, hm]
        exact List.mem_cons_self _ _
    · exact Or.inr (List.mem_cons_of_mem a h)

theorem foldl_max_ub : ∀ (ds : List Int) (d x : Int), x ∈ ds → x ≤ ds.foldl max d := by
  intro ds
  induction ds with
  | nil => intro d x hx; cases hx
  | cons a t ih =>
    intro d x hx
    rcases List.mem_cons.mp hx with rfl | hx
    · exact le_trans (le_max_right d x) (le_foldl_max t (max d x))
    · exact ih (max d a) x hx

/-- When the sorted unique-day list starts with `d0` and every unique day is
at most the chosen starting cursor, the source's walk over the sorted list
computes the spec's backward count over the unsorted unique-day list. -/
theorem walk_branch_eq (uniq : List Int) (d0 : Int) (rest : List Int)
    (hsd : sortDesc uniq = d0 :: rest) (hnodupu : uniq.Nodup) (start : Int)
    (hub : ∀ x ∈ uniq, x ≤ start) :
    streakWalk (d0 :: rest) start = countRun uniq start uniq.length := by
  have hperm : List.Perm (d0 :: rest) uniq := hsd ▸ sortDesc_perm uniq
  have hsorted : List.Sorted (· ≥ ·) (d0 :: rest) := hsd ▸ sortDesc_sorted uniq
  have hnodups : (d0 :: rest).Nodup := hperm.nodup_iff.mpr hnodupu
  have hpair : (d0 :: rest).Pairwise (· > ·) :=
    (hsorted.and hnodups).imp (fun h => lt_of_le_of_ne h.1 (Ne.symm h.2))
  rw [streakWalk_eq_countRun (d0 :: rest) hpair start (d0 :: rest).length (le_refl _)
    (fun x hx => hub x (hperm.subset hx)), hperm.length_eq]
  exact countRun_congr uniq.length (d0 :: rest) uniq (fun x => hperm.mem_iff) start

/-- The code streak calculator agrees with the spec's algorithm on every
input. -/
theorem calculateCurrentStreak_eq_spec (ts : List Int) (now : Int) :
    calculateCurrentStreak ts now = specCurrentStreak ts now := by
  by_cases hts : ts.isEmpty
  · have h : ts = [] := by simpa using hts
    subst h
    rfl
  · have hne2 : ts.map getDateKey ≠ [] := by
      intro h
      rw [List.map_eq_nil_iff] at h
      subst h
      simp at hts
    obtain ⟨a, t, hmap⟩ := List.exists_cons_of_ne_nil hne2
    have huniqne : dedupKeepFirst (ts.map getDateKey) ≠ [] := by
      rw [hmap, dedupKeepFirst, dedupKeepFirstAux]
      simp
    obtain ⟨d, ds, hud⟩ := List.exists_cons_of_ne_nil huniqne
    have hsne : sortDesc (dedupKeepFirst (ts.map getDateKey)) ≠ [] := by
      intro h
      have hperm := sortDesc_perm (dedupKeepFirst (ts.map getDateKey))
      rw [h] at hperm
      exact huniqne (List.perm_nil.mp hperm.symm)
    obtain ⟨d0, rest, hsd⟩ := List.exists_cons_of_ne_nil hsne
    have hmub : ∀ x ∈ dedupKeepFirst (ts.map getDateKey), x ≤ ds.foldl max d := by
      intro x hx
      rw [hud] at hx
      rcases List.mem_cons.mp hx with rfl | hx
      · exact le_foldl_max ds x
      · exact foldl_max_ub ds d x hx
    have hmmem : ds.foldl max d ∈ dedupKeepFirst (ts.map getDateKey) := by
      rw [hud]
      rcases foldl_max_mem ds d with h | h
      · rw [h]
        exact List.mem_cons_self _ _
      · exact List.mem_cons_of_mem _ h
    have hd0m : d0 = ds.foldl max d := by
      have hperm : List.Perm (d0 :: rest) (dedupKeepFirst (ts.map getDateKey)) :=
        hsd ▸ sortDesc_perm _
      have h1 : d0 ≤ ds.foldl max d := hmub d0 (hperm.subset (List.mem_cons_self _ _))
      have h2 : ds.foldl max d ≤ d0 := by
        have hms : ds.foldl max d ∈ d0 :: rest := hperm.mem_iff.mpr hmmem
        rcases List.mem_cons.mp hms with heq | hms
        · exact le_of_eq heq
        · have hs : List.Sorted (· ≥ ·) (d0 :: rest) := hsd ▸ sortDesc_sorted _
          exact (List.pairwise_cons.mp hs).1 _ hms
      exact le_antisymm h1 h2
    have hspec : specMostRecent (dedupKeepFirst (List.map getDateKey ts))
        = some (ds.foldl max d) := by
      rw [hud]
      rfl
    unfold calculateCurrentStreak specCurrentStreak
    rw [if_neg hts, hsd]
    dsimp only
    rw [hspec]
    dsimp only
    rw [← hd0m]
    by_cases h1 : d0 = getDateKey now
    · rw [if_pos h1, if_pos h1]
      refine walk_branch_eq _ d0 rest hsd (nodup_dedupKeepFirst _) _ ?_
      intro x hx
      have hle := hmub x hx
      rw [← hd0m] at hle
      omega
    · rw [if_neg h1, if_neg h1]
      by_cases h2 : d0 = getDateKey now - 1
      · rw [if_pos h2, if_pos h2]
        refine walk_branch_eq _ d0 rest hsd (nodup_dedupKeepFirst _) _ ?_
        intro x hx
        have hle := hmub x hx
        rw [← hd0m] at hle
        omega
      · rw [if_neg h2, if_neg h2]

/-- C1: the streak calculator realizes the spec algorithm on every input -
empty input gives 0, otherwise the timestamps are reduced to unique
local-day keys, counting starts at today's key when the most recent unique
day is today, at yesterday's key when the most recent unique day is
yesterday, and is 0 otherwise, and the count walks backward over consecutive
present days stopping at the first gap. The listed scenarios (with day key
1000 as today): entries on days 1000/999/998 give 3; on 999/998 give 2; on
998 alone give 0; on 1000/999/997 give 2 (stops at the gap at 998); two
entries on day 1000 plus one on 999 give 2 (one calendar day counts once). -/
theorem streak_calculator_correct :
    (∀ (timestamps : List Int) (now : Int),
      calculateCurrentStreak timestamps now = specCurrentStreak timestamps now) ∧
    (∀ now : Int, calculateCurrentStreak [] now = 0) ∧
    calculateCurrentStreak [86403600000, 86313600100, 86227200005] 86407200000 = 3 ∧
    calculateCurrentStreak [86313600100, 86227200005] 86407200000 = 2 ∧
    calculateCurrentStreak [86227200005] 86407200000 = 0 ∧
    calculateCurrentStreak [86403600000, 86313600100, 86140800000] 86407200000 = 2 ∧
    calculateCurrentStreak [86403600000, 86403600001, 86313600100] 86407200000 = 2 :=
  ⟨calculateCurrentStreak_eq_spec, fun _ => rfl, by decide, by decide, by decide,
    by decide, by decide⟩
